import Mathlib

/-!
Verification development for the SIXEL decoding core of the contour
terminal emulator: the streaming `SixelParser` state machine, the
`SixelImageBuilder` pixel-buffer sink it drives, the bounded
`SixelColorPalette`, and the per-cell `RasterizedImage.fragment` slicer.

The definitions below are a shallow embedding of
`src/terminal/SixelParser.cpp` and `src/terminal/Image.cpp`.
Machine integers (`unsigned`, `int8_t`, byte values) are modelled as
`Nat`; pixel buffers (`std::vector<uint8_t>`) as `List Nat`.
-/

namespace Contour

/-- Pixel size, mirroring `crispy::Size` (width, height as `unsigned`). -/
structure Size where
  width : Nat
  height : Nat
deriving DecidableEq

/-- Pixel/cell coordinate, mirroring `terminal::Coordinate` (row, column).
In the source these are `int`; every use the claims touch is non-negative,
so they are modelled as `Nat`. -/
structure Coordinate where
  row : Nat
  column : Nat
deriving DecidableEq

/-- Modelled from the spec: `RGBColor` from `Color.h` (not under src/):
(red, green, blue), 8-bit channels. Channels are kept as `Nat`; the
palette only ever stores values below 256. -/
structure RGBColor where
  red : Nat
  green : Nat
  blue : Nat
deriving DecidableEq

/-- Modelled from the spec: `RGBAColor` from `Color.h` (not under src/):
`RGBColor` plus an 8-bit alpha channel. -/
structure RGBAColor where
  red : Nat
  green : Nat
  blue : Nat
  alpha : Nat
deriving DecidableEq

/-- VT 340 default color palette, exactly the 16 entries of
`defaultColors` in `SixelParser.cpp`. -/
def defaultColors : List RGBColor :=
  [⟨0, 0, 0⟩, ⟨51, 51, 204⟩, ⟨204, 33, 33⟩, ⟨51, 204, 51⟩,
   ⟨204, 51, 204⟩, ⟨51, 204, 204⟩, ⟨204, 204, 51⟩, ⟨135, 135, 135⟩,
   ⟨66, 66, 66⟩, ⟨84, 84, 153⟩, ⟨153, 66, 66⟩, ⟨84, 153, 84⟩,
   ⟨153, 84, 153⟩, ⟨84, 153, 153⟩, ⟨153, 153, 84⟩, ⟨204, 204, 204⟩]

/-- `std::vector::resize` semantics on a color list: keep a prefix,
default-initialise new slots (black, per the spec's data model). -/
def listResize (l : List RGBColor) (n : Nat) : List RGBColor :=
  l.take n ++ List.replicate (n - l.length) ⟨0, 0, 0⟩

/-- `terminal::SixelColorPalette`: an ordered color list plus a cap. -/
structure SixelColorPalette where
  palette : List RGBColor
  maxSize : Nat
deriving DecidableEq

namespace SixelColorPalette

/-- `SixelColorPalette::size()`. -/
def size (p : SixelColorPalette) : Nat := p.palette.length

/-- `SixelColorPalette::reset()`: copy the VT340 defaults into the first
`min(size(), 16)` slots. -/
def reset (p : SixelColorPalette) : SixelColorPalette :=
  { p with palette :=
      (List.range p.palette.length).map fun i =>
        if i < defaultColors.length then defaultColors.getD i ⟨0, 0, 0⟩
        else p.palette.getD i ⟨0, 0, 0⟩ }

/-- The constructor `SixelColorPalette(_size, _maxSize)`: resize the empty
palette to `_size` (note: NOT clamped against `_maxSize`), then `reset()`. -/
def init (sz maxSize : Nat) : SixelColorPalette :=
  reset { palette := List.replicate sz ⟨0, 0, 0⟩, maxSize := maxSize }

/-- `SixelColorPalette::setSize(n)`: resize to `max(0, min(n, maxSize))`. -/
def setSize (p : SixelColorPalette) (n : Nat) : SixelColorPalette :=
  { p with palette := listResize p.palette (min n p.maxSize) }

/-- `SixelColorPalette::setColor(i, c)`: only when `i < maxSize`, grow to
`i + 1` slots if needed, then store when in range. -/
def setColor (p : SixelColorPalette) (i : Nat) (c : RGBColor) : SixelColorPalette :=
  if i < p.maxSize then
    let p' := if p.size ≤ i then p.setSize (i + 1) else p
    if i < p'.palette.length then { p' with palette := p'.palette.set i c } else p'
  else p

/-- `SixelColorPalette::at(i)`: `palette_[i % palette_.size()]`.
The source name `at` is a reserved word in Lean, hence `atIndex`.
(In C++, `i % 0` would be undefined; theorems about `atIndex` assume a
non-empty palette.) -/
def atIndex (p : SixelColorPalette) (i : Nat) : RGBColor :=
  p.palette.getD (i % p.palette.length) ⟨0, 0, 0⟩

end SixelColorPalette

/-- `terminal::SixelImageBuilder`: evolving RGBA raster plus sixel cursor.
The shared palette pointer is modelled by owning the palette by value. -/
structure SixelImageBuilder where
  maxSize : Size
  colors : SixelColorPalette
  size : Size
  buffer : List Nat
  sixelCursor : Coordinate
  currentColor : Nat
  aspectRatio : Nat × Nat
deriving DecidableEq

namespace SixelImageBuilder

/-- `SixelImageBuilder::clear(fill)`: reset the cursor and flood-fill the
`size.w * size.h` pixels with the RGBA fill bytes. -/
def clear (b : SixelImageBuilder) (fill : RGBAColor) : SixelImageBuilder :=
  { b with
    sixelCursor := ⟨0, 0⟩,
    buffer := (List.replicate (b.size.width * b.size.height)
        [fill.red, fill.green, fill.blue, fill.alpha]).flatten }

/-- The `SixelImageBuilder` constructor: `size = maxSize`, buffer sized
`w*h*4`, cursor `(0,0)`, color index 0, then `clear(background)`. -/
def init (maxSize : Size) (aspectVertical aspectHorizontal : Nat)
    (background : RGBAColor) (palette : SixelColorPalette) : SixelImageBuilder :=
  clear
    { maxSize := maxSize
      colors := palette
      size := maxSize
      buffer := List.replicate (maxSize.width * maxSize.height * 4) 0
      sixelCursor := ⟨0, 0⟩
      currentColor := 0
      aspectRatio := (aspectVertical, aspectHorizontal) }
    background

/-- `SixelImageBuilder::write(coord, value)`: bounds-checked write of
R, G, B and an opaque alpha `0xFF` at
`base = row * size.w * 4 + col * 4`. Out-of-raster writes are dropped. -/
def write (b : SixelImageBuilder) (coord : Coordinate) (v : RGBColor) : SixelImageBuilder :=
  if coord.row < b.size.height ∧ coord.column < b.size.width then
    { b with buffer :=
        ((((b.buffer.set (coord.row * b.size.width * 4 + coord.column * 4) v.red).set
            (coord.row * b.size.width * 4 + coord.column * 4 + 1) v.green).set
            (coord.row * b.size.width * 4 + coord.column * 4 + 2) v.blue).set
            (coord.row * b.size.width * 4 + coord.column * 4 + 3) 255) }
  else b

/-- Modelled from the spec: the `currentColor()` accessor lives in
`SixelParser.h` (not under src/); per the spec, `render` writes "the
current palette color", i.e. the palette entry selected by the
`currentColor` index. -/
def currentColorVal (b : SixelImageBuilder) : RGBColor :=
  b.colors.atIndex b.currentColor

/-- `SixelImageBuilder::setColor(index, color)`: delegate to the palette. -/
def setColor (b : SixelImageBuilder) (i : Nat) (c : RGBColor) : SixelImageBuilder :=
  { b with colors := b.colors.setColor i c }

/-- `SixelImageBuilder::useColor(index)`:
`currentColor_ = index % colors_->size()`. -/
def useColor (b : SixelImageBuilder) (i : Nat) : SixelImageBuilder :=
  { b with currentColor := i % b.colors.size }

/-- `SixelImageBuilder::rewind()`: column back to 0, row unchanged. -/
def rewind (b : SixelImageBuilder) : SixelImageBuilder :=
  { b with sixelCursor := ⟨b.sixelCursor.row, 0⟩ }

/-- `SixelImageBuilder::newline()`: column to 0; advance the row by 6
only when `row + 6 < size.h`. -/
def newline (b : SixelImageBuilder) : SixelImageBuilder :=
  { b with sixelCursor :=
      ⟨if b.sixelCursor.row + 6 < b.size.height then b.sixelCursor.row + 6
        else b.sixelCursor.row, 0⟩ }

/-- `SixelImageBuilder::setRaster(pan, pad, imageSize)`: store the aspect
ratio, clamp the size per axis to `[0, maxSize]` (for `Nat`,
`clamp v 0 m = min v m`) and resize the buffer to `w * h * 4` bytes,
`std::vector::resize` style (keep prefix, zero-fill growth). -/
def setRaster (b : SixelImageBuilder) (pan pad : Nat) (imageSize : Size) : SixelImageBuilder :=
  let w := min imageSize.width b.maxSize.width
  let h := min imageSize.height b.maxSize.height
  { b with
    aspectRatio := (pan, pad),
    size := ⟨w, h⟩,
    buffer := b.buffer.take (w * h * 4) ++
      List.replicate (w * h * 4 - b.buffer.length) 0 }

/-- The body of the `for (i = 0; i < 6; ++i)` loop of
`SixelImageBuilder::render`, folded over the bit indices: for each set
bit `i` of the sixel value, write the current palette color at
`(row + i, x)` where `x` is the column captured before the loop. -/
def renderFold (x sixel : Nat) (L : List Nat) (b : SixelImageBuilder) : SixelImageBuilder :=
  L.foldl
    (fun acc i =>
      if sixel &&& (1 <<< i) ≠ 0 then
        acc.write ⟨acc.sixelCursor.row + i, x⟩ acc.currentColorVal
      else acc) b

/-- `SixelImageBuilder::render(sixel)`: when the captured column is inside
the raster, run the six-bit write loop, then advance the column by one.
Otherwise do nothing. -/
def render (b : SixelImageBuilder) (sixel : Nat) : SixelImageBuilder :=
  if b.sixelCursor.column < b.size.width then
    { renderFold b.sixelCursor.column sixel (List.range 6) b with
      sixelCursor :=
        ⟨(renderFold b.sixelCursor.column sixel (List.range 6) b).sixelCursor.row,
         (renderFold b.sixelCursor.column sixel (List.range 6) b).sixelCursor.column + 1⟩ }
  else b

/-- Read the four bytes of pixel `(r, c)` from the builder's buffer at
`base = r * size.w * 4 + c * 4` (missing bytes read as 0). -/
def pixelAt (b : SixelImageBuilder) (r c : Nat) : List Nat :=
  [b.buffer.getD (r * b.size.width * 4 + c * 4) 0,
   b.buffer.getD (r * b.size.width * 4 + c * 4 + 1) 0,
   b.buffer.getD (r * b.size.width * 4 + c * 4 + 2) 0,
   b.buffer.getD (r * b.size.width * 4 + c * 4 + 3) 0]

end SixelImageBuilder

/-- The five states of `SixelParser::State`. -/
inductive ParseState
  | Ground
  | RepeatIntroducer
  | ColorIntroducer
  | ColorParam
  | RasterSettings
deriving DecidableEq

/-- The `SixelParser::Events` sink calls, reified as event records. -/
inductive SixelEvent
  | render (sixel : Nat)
  | setRaster (pan pad : Nat) (sz : Size)
  | useColor (index : Nat)
  | setColor (index : Nat) (color : RGBColor)
  | rewind
  | newline
deriving DecidableEq

/-- `isDigit` from `SixelParser.cpp`, on code points. -/
def isDigit (v : Nat) : Bool := 48 ≤ v ∧ v ≤ 57

/-- `toDigit` from `SixelParser.cpp`. -/
def toDigit (v : Nat) : Nat := v - 48

/-- `isSixel` from `SixelParser.cpp`: code points 63..126. -/
def isSixel (v : Nat) : Bool := 63 ≤ v ∧ v ≤ 126

/-- `toSixel` from `SixelParser.cpp`: `value - 63`. -/
def toSixel (v : Nat) : Nat := v - 63

/-- Fuel-driven binary logarithm: `log2Nat fuel n` is `⌊log2 n⌋` for
`1 ≤ n ≤ 2 ^ fuel` (and the fuel is always ample where it is used). -/
def log2Nat : Nat → Nat → Nat
  | 0, _ => 0
  | fuel + 1, n => if 2 ≤ n then log2Nat fuel (n / 2) + 1 else 0

/-- Round the non-negative rational `num / den` to the nearest IEEE
binary32 value, ties to even, returned as a dyadic pair `(a, b)` with
value `a / 2 ^ b`. Exact for inputs that are zero or at least 1 and
within the binary32 normal finite range — the only values the sixel
color pipeline produces (each operand of `convertValue` is an integer
times 255 or such a product divided by 100). For a normal binary32
value in `[2 ^ e, 2 ^ (e+1))` the representable grid has spacing
`2 ^ (e - 23)`; the significand is rounded on that grid and a carry
into `2 ^ 24` bumps the exponent. -/
def roundF32 (num den : Nat) : Nat × Nat :=
  if num = 0 ∨ den = 0 then (0, 0)
  else
    let e := log2Nat num (num / den)
    let D := den * 2 ^ e
    let N := num * 2 ^ 23
    let m0 := N / D
    let r := N % D
    let m :=
      if 2 * r < D then m0
      else if D < 2 * r then m0 + 1
      else if m0 % 2 = 0 then m0 else m0 + 1
    let e' := if m = 2 ^ 24 then e + 1 else e
    let m' := if m = 2 ^ 24 then 2 ^ 23 else m
    if 23 ≤ e' then (m' * 2 ^ (e' - 23), 0) else (m', 23 - e')

/-- `convertValue` inside `SixelParser::leaveState`:
`static_cast<unsigned>((static_cast<float>(v) * 255.0f) / 100.0f) % 256`,
modelled bit-exactly: convert `v` to binary32, multiply by the exactly
representable 255.0f (rounding the product), divide by the exactly
representable 100.0f (rounding the quotient), truncate toward zero,
reduce mod 256. This agrees with exact `v * 255 / 100 % 256` on the
protocol's 0..100 parameter range but diverges from it at larger
reachable parameters (first at `v = 263180`). -/
def convertValue (v : Nat) : Nat :=
  let f1 := roundF32 v 1
  let f2 := roundF32 (f1.1 * 255) (2 ^ f1.2)
  let f3 := roundF32 f2.1 (2 ^ f2.2 * 100)
  f3.1 / 2 ^ f3.2 % 256

/-- The mutable state of `terminal::SixelParser`: current state plus the
accumulated parameter list. -/
structure SixelParser where
  state : ParseState
  params : List Nat
deriving DecidableEq

namespace SixelParser

/-- `SixelParser::paramShiftAndAddDigit(d)`: `params.back() = back*10 + d`.
(The source only calls this with a non-empty list.) -/
def paramShiftAndAddDigit (ps : List Nat) (d : Nat) : List Nat :=
  ps.dropLast ++ [ps.getLastD 0 * 10 + d]

/-- The events emitted by `SixelParser::leaveState()` for a given state
and parameter list. (The `state_ = Ground` assignment in the
`RasterSettings` branch is immediately overwritten by `transitionTo`,
so it has no observable effect.) -/
def leaveEvents (st : ParseState) (ps : List Nat) : List SixelEvent :=
  match st with
  | .RasterSettings =>
      if ps.length = 4 then
        [.setRaster (ps.getD 0 0) (ps.getD 1 0) ⟨ps.getD 2 0, ps.getD 3 0⟩]
      else []
  | .ColorParam =>
      if ps.length = 1 then
        [.useColor (ps.getD 0 0)]
      else if ps.length = 5 then
        if ps.getD 1 0 = 2 then
          [.setColor (ps.getD 0 0)
            ⟨convertValue (ps.getD 2 0), convertValue (ps.getD 3 0),
             convertValue (ps.getD 4 0)⟩]
        else []
      else []
  | _ => []

/-- `SixelParser::enterState()`: entering an introducer state clears the
parameters and pushes a single 0. -/
def enterParams (st : ParseState) (ps : List Nat) : List Nat :=
  match st with
  | .ColorIntroducer | .RepeatIntroducer | .RasterSettings => [0]
  | _ => ps

/-- `SixelParser::transitionTo(newState)`: fire the leave action of the
current state, switch, then run the enter action. -/
def transitionTo (p : SixelParser) (s : ParseState) : SixelParser × List SixelEvent :=
  (⟨s, enterParams s p.params⟩, leaveEvents p.state p.params)

/-- `SixelParser::fallback(value)`: command introducers from any state;
`$`/`-` force `Ground` and emit; anything else forces `Ground` (when not
there already) and renders when it is a sixel byte; all else ignored. -/
def fallback (p : SixelParser) (v : Nat) : SixelParser × List SixelEvent :=
  if v = 35 then p.transitionTo .ColorIntroducer
  else if v = 33 then p.transitionTo .RepeatIntroducer
  else if v = 34 then p.transitionTo .RasterSettings
  else if v = 36 then
    let pe := p.transitionTo .Ground
    (pe.1, pe.2 ++ [.rewind])
  else if v = 45 then
    let pe := p.transitionTo .Ground
    (pe.1, pe.2 ++ [.newline])
  else
    let pe := if p.state ≠ .Ground then p.transitionTo .Ground else (p, [])
    if isSixel v then (pe.1, pe.2 ++ [.render (toSixel v)]) else pe

/-- `SixelParser::parse(value)`: the per-state dispatch. -/
def parse (p : SixelParser) (v : Nat) : SixelParser × List SixelEvent :=
  match p.state with
  | .Ground => p.fallback v
  | .RepeatIntroducer =>
      if isDigit v then
        ({ p with params := paramShiftAndAddDigit p.params (toDigit v) }, [])
      else if isSixel v then
        let evs := List.replicate (p.params.getD 0 0) (SixelEvent.render (toSixel v))
        let pe := p.transitionTo .Ground
        (pe.1, evs ++ pe.2)
      else p.fallback v
  | .ColorIntroducer =>
      if isDigit v then
        SixelParser.transitionTo
          { p with params := paramShiftAndAddDigit p.params (toDigit v) } .ColorParam
      else p.fallback v
  | .ColorParam =>
      if isDigit v then
        ({ p with params := paramShiftAndAddDigit p.params (toDigit v) }, [])
      else if v = 59 then ({ p with params := p.params ++ [0] }, [])
      else p.fallback v
  | .RasterSettings =>
      if isDigit v then
        ({ p with params := paramShiftAndAddDigit p.params (toDigit v) }, [])
      else if v = 59 then ({ p with params := p.params ++ [0] }, [])
      else p.fallback v

/-- The parser's initial state: `Ground` with no parameters. -/
def init : SixelParser := ⟨.Ground, []⟩

end SixelParser

/-- Dispatch one parser event to the canonical `Events` implementation,
`SixelImageBuilder`. -/
def SixelImageBuilder.applyEvent (b : SixelImageBuilder) (e : SixelEvent) : SixelImageBuilder :=
  match e with
  | .render s => b.render s
  | .setRaster pan pad sz => b.setRaster pan pad sz
  | .useColor i => b.useColor i
  | .setColor i c => b.setColor i c
  | .rewind => b.rewind
  | .newline => b.newline

/-- Feed one code point to the parser and apply the emitted events to the
builder, preserving emission order. -/
def decodeStep (pb : SixelParser × SixelImageBuilder) (v : Nat) :
    SixelParser × SixelImageBuilder :=
  let pe := pb.1.parse v
  (pe.1, pe.2.foldl SixelImageBuilder.applyEvent pb.2)

/-- Stream a whole input through parser and builder. -/
def decode (p : SixelParser) (b : SixelImageBuilder) (input : List Nat) :
    SixelParser × SixelImageBuilder :=
  input.foldl decodeStep (p, b)

/-- Modelled from the spec: `terminal::Image` (its class lives in
`Image.h`, not under src/) is a pixel size plus an owned RGBA byte
buffer; `fragment` only reads `width()`, `height()` and `data()`. -/
structure Image where
  width : Nat
  height : Nat
  data : List Nat
deriving DecidableEq

/-- `terminal::RasterizedImage`: the fields `fragment` reads. The
alignment and resize policies are carried by the source object but not
yet consulted by `fragment` (marked TODO there). -/
structure RasterizedImage where
  image : Image
  defaultColor : RGBAColor
  cellSize : Size
deriving DecidableEq

/-- The four bytes `fragment` writes for a `defaultColor` fill, in the
order the source emits them (`red(), green(), blue(), alpha()`). -/
def RGBAColor.bytes (c : RGBAColor) : List Nat :=
  [c.red, c.green, c.blue, c.alpha]

/-- `availableWidth` in `RasterizedImage::fragment`:
`min(image.width - xOffset, cellSize.width)`. -/
def RasterizedImage.availableWidth (ri : RasterizedImage) (pos : Coordinate) : Nat :=
  min (ri.image.width - pos.column * ri.cellSize.width) ri.cellSize.width

/-- `availableHeight` in `RasterizedImage::fragment`:
`min(image.height - yOffset, cellSize.height)`. -/
def RasterizedImage.availableHeight (ri : RasterizedImage) (pos : Coordinate) : Nat :=
  min (ri.image.height - pos.row * ri.cellSize.height) ri.cellSize.height

/-- `RasterizedImage::fragment(pos)`: a `cellSize.w * cellSize.h * 4` byte
tile. The first `cellSize.h - availableHeight` buffer rows (the bottom of
the displayed, bottom-up tile) are `defaultColor`; the following buffer
row `(cellSize.h - availableHeight) + y`, for `y < availableHeight`,
copies `availableWidth` pixels of image row
`yOffset + (availableHeight - 1 - y)` starting at column `xOffset`, then
pads the remaining `cellSize.w - availableWidth` pixels with
`defaultColor`. -/
def RasterizedImage.fragment (ri : RasterizedImage) (pos : Coordinate) : List Nat :=
  (List.replicate ((ri.cellSize.height - ri.availableHeight pos) * ri.cellSize.width)
      ri.defaultColor.bytes).flatten ++
    ((List.range (ri.availableHeight pos)).map fun y =>
      ((ri.image.data.drop
          (((pos.row * ri.cellSize.height + (ri.availableHeight pos - 1 - y)) * ri.image.width
              + pos.column * ri.cellSize.width) * 4)).take (ri.availableWidth pos * 4)) ++
        (List.replicate (ri.cellSize.width - ri.availableWidth pos)
          ri.defaultColor.bytes).flatten).flatten

/-! ## Basic frame lemmas -/

theorem listResize_length (l : List RGBColor) (n : Nat) : (listResize l n).length = n := by
  simp only [listResize, List.length_append, List.length_take, List.length_replicate]
  omega

namespace SixelImageBuilder

theorem write_size (b : SixelImageBuilder) (coord : Coordinate) (v : RGBColor) :
    (b.write coord v).size = b.size := by
  unfold write; split <;> rfl

theorem write_sixelCursor (b : SixelImageBuilder) (coord : Coordinate) (v : RGBColor) :
    (b.write coord v).sixelCursor = b.sixelCursor := by
  unfold write; split <;> rfl

theorem write_colors (b : SixelImageBuilder) (coord : Coordinate) (v : RGBColor) :
    (b.write coord v).colors = b.colors := by
  unfold write; split <;> rfl

theorem write_currentColor (b : SixelImageBuilder) (coord : Coordinate) (v : RGBColor) :
    (b.write coord v).currentColor = b.currentColor := by
  unfold write; split <;> rfl

theorem write_buffer_length (b : SixelImageBuilder) (coord : Coordinate) (v : RGBColor) :
    (b.write coord v).buffer.length = b.buffer.length := by
  unfold write; split <;> simp

/-- The six-bit write loop preserves every builder projection that
`write` preserves. -/
theorem renderFold_proj {γ : Type} (proj : SixelImageBuilder → γ)
    (hw : ∀ b coord v, proj (b.write coord v) = proj b)
    (x s : Nat) (L : List Nat) (b : SixelImageBuilder) :
    proj (renderFold x s L b) = proj b := by
  induction L generalizing b with
  | nil => rfl
  | cons i L ih =>
      show proj (renderFold x s L _) = proj b
      rw [ih]
      dsimp only
      split
      · exact hw ..
      · rfl

theorem renderFold_size (x s : Nat) (L : List Nat) (b : SixelImageBuilder) :
    (renderFold x s L b).size = b.size :=
  renderFold_proj SixelImageBuilder.size (fun b c v => write_size b c v) x s L b

theorem renderFold_sixelCursor (x s : Nat) (L : List Nat) (b : SixelImageBuilder) :
    (renderFold x s L b).sixelCursor = b.sixelCursor :=
  renderFold_proj SixelImageBuilder.sixelCursor (fun b c v => write_sixelCursor b c v) x s L b

theorem renderFold_buffer_length (x s : Nat) (L : List Nat) (b : SixelImageBuilder) :
    (renderFold x s L b).buffer.length = b.buffer.length :=
  renderFold_proj (fun b => b.buffer.length) (fun b c v => write_buffer_length b c v) x s L b

theorem render_size (b : SixelImageBuilder) (s : Nat) :
    (b.render s).size = b.size := by
  unfold render
  split
  · exact renderFold_size ..
  · rfl

theorem render_row (b : SixelImageBuilder) (s : Nat) :
    (b.render s).sixelCursor.row = b.sixelCursor.row := by
  unfold render
  split
  · show (renderFold _ _ _ _).sixelCursor.row = _
    rw [renderFold_sixelCursor]
  · rfl

theorem render_column (b : SixelImageBuilder) (s : Nat) :
    (b.render s).sixelCursor.column =
      if b.sixelCursor.column < b.size.width then b.sixelCursor.column + 1
      else b.sixelCursor.column := by
  unfold render
  split
  · show (renderFold _ _ _ _).sixelCursor.column + 1 = _
    rw [renderFold_sixelCursor]
  · rfl

end SixelImageBuilder

/-! ## C5: setRaster sets the aspect ratio, clamps the size and resizes
the buffer -/

/-- C5: after `setRaster(pan, pad, s)` the aspect ratio is `(pan, pad)`,
both size axes are clamped to `[0, maxSize]`, and the pixel buffer holds
exactly `4 * clamp(s.w, 0, maxSize.w) * clamp(s.h, 0, maxSize.h)` bytes
(`clamp v 0 m = min v m` on naturals). -/
theorem setRaster_spec (b : SixelImageBuilder) (pan pad : Nat) (s : Size) :
    (b.setRaster pan pad s).aspectRatio = (pan, pad) ∧
    (b.setRaster pan pad s).size.width = min s.width b.maxSize.width ∧
    (b.setRaster pan pad s).size.height = min s.height b.maxSize.height ∧
    (b.setRaster pan pad s).buffer.length =
      4 * min s.width b.maxSize.width * min s.height b.maxSize.height := by
  refine ⟨rfl, rfl, rfl, ?_⟩
  show (b.buffer.take _ ++ List.replicate _ 0).length = _
  simp only [List.length_append, List.length_take, List.length_replicate]
  have h : ∀ k len : Nat, min k len + (k - len) = k := fun k len => by omega
  rw [h]
  ring

/-! ## C6: newline resets the column, conditionally advances the row and
touches no pixel -/

/-- C6: `newline()` zeroes the column, adds 6 to the row exactly when
`row + 6 < size.h` (leaving it unchanged otherwise), and leaves the
pixel buffer untouched. -/
theorem newline_spec (b : SixelImageBuilder) :
    b.newline.sixelCursor.column = 0 ∧
    b.newline.sixelCursor.row =
      (if b.sixelCursor.row + 6 < b.size.height then b.sixelCursor.row + 6
       else b.sixelCursor.row) ∧
    b.newline.buffer = b.buffer :=
  ⟨rfl, rfl, rfl⟩

/-! ## C9: palette lookups wrap modulo the palette length -/

/-- C9: for every palette with a non-empty color list (the only case in
which the C++ `palette_[i % palette_.size()]` is well defined) and every
index `i`, `at(i)` equals `at(i mod palette.length)`. -/
theorem palette_wrap (p : SixelColorPalette) (i : Nat) (h : 0 < p.palette.length) :
    p.atIndex i = p.atIndex (i % p.palette.length) := by
  unfold SixelColorPalette.atIndex
  rw [Nat.mod_mod_of_dvd i dvd_rfl]

theorem palette_wrap_witness :
    0 < (SixelColorPalette.init 16 256).palette.length ∧
    (SixelColorPalette.init 16 256).atIndex 21 =
      (SixelColorPalette.init 16 256).atIndex
        (21 % (SixelColorPalette.init 16 256).palette.length) :=
  ⟨by decide, palette_wrap (SixelColorPalette.init 16 256) 21 (by decide)⟩

/-! ## C4: leave actions of the ColorParam state -/

/-- The claim's exact scale formula `floor(v * 255 / 100) mod 256` is
refuted by the source's single-precision pipeline at the reachable
parameter `v = 263180` (e.g. input `#1;2;263180;0;0`): the float32
product `263180 * 255` rounds to `67110896`, whose float32 quotient by
100 is `671108.9375`, truncating to `671108 ≡ 132 (mod 256)`, while the
exact formula gives `133`. -/
theorem counterexample_scale :
    SixelParser.leaveEvents .ColorParam [1, 2, 263180, 0, 0] =
      [.setColor 1 ⟨132, 0, 0⟩] ∧
    263180 * 255 / 100 % 256 = 133 :=
  ⟨by decide, by decide⟩

/-- C4 (amended): leaving `ColorParam` with one parameter emits exactly
`useColor(params[0])`; with five parameters `(index, space, a, b, c)` and
`space = 2` it emits exactly `setColor(index, RGB(scale a, scale b,
scale c))` where `scale` is the source's single-precision computation
`trunc(float32(float32(v) * 255.0f) / 100.0f) mod 256`, which coincides
with the exact `floor(v * 255 / 100) mod 256` on the protocol's 0..100
parameter range; with five parameters and `space ≠ 2` it emits nothing;
with any other parameter count it emits nothing. -/
theorem colorParam_leave_spec (i sp a b c : Nat) (ps : List Nat) :
    SixelParser.leaveEvents .ColorParam [i] = [.useColor i] ∧
    SixelParser.leaveEvents .ColorParam [i, 2, a, b, c] =
      [.setColor i ⟨convertValue a, convertValue b, convertValue c⟩] ∧
    (sp ≠ 2 → SixelParser.leaveEvents .ColorParam [i, sp, a, b, c] = []) ∧
    (ps.length ≠ 1 → ps.length ≠ 5 → SixelParser.leaveEvents .ColorParam ps = []) ∧
    (∀ v, v ≤ 100 → convertValue v = v * 255 / 100 % 256) := by
  refine ⟨rfl, rfl, fun h => ?_, fun h1 h5 => ?_, by decide⟩
  · simp [SixelParser.leaveEvents, h]
  · simp [SixelParser.leaveEvents, h1, h5]

theorem colorParam_leave_spec_witness :
    (3 : Nat) ≠ 2 ∧ ([] : List Nat).length ≠ 1 ∧ ([] : List Nat).length ≠ 5 ∧
    (100 : Nat) ≤ 100 ∧
    SixelParser.leaveEvents .ColorParam [7, 3, 10, 20, 30] = [] ∧
    SixelParser.leaveEvents .ColorParam [] = [] ∧
    convertValue 100 = 100 * 255 / 100 % 256 := by
  have h := colorParam_leave_spec 7 3 10 20 30 []
  exact ⟨by decide, by decide, by decide, by decide, h.2.2.1 (by decide),
    h.2.2.2.1 (by decide) (by decide), h.2.2.2.2 100 (by decide)⟩

/-! ## C10: setRaster leaves the cursor and color selection alone -/

/-- C10: `setRaster` preserves `sixelCursor` and `currentColor`; and when
the freshly clamped width is smaller than the (preserved) cursor column,
any subsequent `render` leaves the builder completely unchanged, so no
pixel is emitted. -/
theorem setRaster_frame (b : SixelImageBuilder) (pan pad : Nat) (s : Size) :
    (b.setRaster pan pad s).sixelCursor = b.sixelCursor ∧
    (b.setRaster pan pad s).currentColor = b.currentColor ∧
    (min s.width b.maxSize.width < b.sixelCursor.column →
      ∀ sx : Nat, (b.setRaster pan pad s).render sx = b.setRaster pan pad s) := by
  refine ⟨rfl, rfl, fun h sx => ?_⟩
  unfold SixelImageBuilder.render
  rw [if_neg]
  show ¬ b.sixelCursor.column < min s.width b.maxSize.width
  omega

/-- A concrete builder whose cursor sits at column 5, used to witness
the beyond-raster behaviour after a shrinking `setRaster`. -/
def builderAtCol5 : SixelImageBuilder :=
  { SixelImageBuilder.init ⟨10, 6⟩ 1 1 ⟨0, 0, 0, 255⟩ (SixelColorPalette.init 16 256)
    with sixelCursor := ⟨0, 5⟩ }

theorem setRaster_frame_witness :
    min (1 : Nat) builderAtCol5.maxSize.width < builderAtCol5.sixelCursor.column ∧
    (builderAtCol5.setRaster 3 4 ⟨1, 6⟩).render 5 = builderAtCol5.setRaster 3 4 ⟨1, 6⟩ :=
  ⟨by decide, (setRaster_frame builderAtCol5 3 4 ⟨1, 6⟩).2.2 (by decide) 5⟩

/-! ## C7: cursor discipline under render / rewind / newline -/

/-- The builder operations quantified over by the cursor-discipline
invariant. -/
inductive BuilderOp
  | render (sixel : Nat)
  | rewind
  | newline

/-- Apply one cursor-moving builder operation. -/
def applyBuilderOp (b : SixelImageBuilder) (op : BuilderOp) : SixelImageBuilder :=
  match op with
  | .render s => b.render s
  | .rewind => b.rewind
  | .newline => b.newline

theorem applyBuilderOp_size (b : SixelImageBuilder) (op : BuilderOp) :
    (applyBuilderOp b op).size = b.size := by
  cases op with
  | render s => exact b.render_size s
  | rewind => rfl
  | newline => rfl

theorem cursor_discipline_aux (ops : List BuilderOp) (b : SixelImageBuilder)
    (hrow : b.sixelCursor.row % 6 = 0)
    (hcol : b.sixelCursor.column ≤ b.size.width) :
    (ops.foldl applyBuilderOp b).sixelCursor.row % 6 = 0 ∧
    (ops.foldl applyBuilderOp b).sixelCursor.column ≤
      (ops.foldl applyBuilderOp b).size.width := by
  induction ops generalizing b with
  | nil => exact ⟨hrow, hcol⟩
  | cons op ops ih =>
      refine ih (applyBuilderOp b op) ?_ ?_
      · cases op with
        | render s => rw [applyBuilderOp, SixelImageBuilder.render_row]; exact hrow
        | rewind => exact hrow
        | newline =>
            show (if b.sixelCursor.row + 6 < b.size.height then _ else _) % 6 = 0
            split <;> omega
      · cases op with
        | render s =>
            rw [applyBuilderOp, SixelImageBuilder.render_size,
              SixelImageBuilder.render_column]
            split <;> omega
        | rewind => exact Nat.zero_le _
        | newline => exact Nat.zero_le _

/-- C7: starting from a builder whose cursor is at the origin, any
sequence of `render`, `rewind` and `newline` operations leaves
`sixelCursor.row` a multiple of 6 and `sixelCursor.column` within
`[0, size.w]` (columns are naturals, so the lower bound is inherent). -/
theorem cursor_discipline (b : SixelImageBuilder) (ops : List BuilderOp)
    (h : b.sixelCursor = ⟨0, 0⟩) :
    (ops.foldl applyBuilderOp b).sixelCursor.row % 6 = 0 ∧
    (ops.foldl applyBuilderOp b).sixelCursor.column ≤
      (ops.foldl applyBuilderOp b).size.width := by
  refine cursor_discipline_aux ops b ?_ ?_ <;> rw [h]
  · rfl
  · exact Nat.zero_le _

theorem cursor_discipline_witness :
    (SixelImageBuilder.init ⟨10, 6⟩ 1 1 ⟨0, 0, 0, 255⟩
        (SixelColorPalette.init 16 256)).sixelCursor = ⟨0, 0⟩ ∧
    (([BuilderOp.render 63, .render 5, .newline, .render 1, .rewind,
        .render 2].foldl applyBuilderOp
        (SixelImageBuilder.init ⟨10, 6⟩ 1 1 ⟨0, 0, 0, 255⟩
          (SixelColorPalette.init 16 256))).sixelCursor.row % 6 = 0 ∧
      ([BuilderOp.render 63, .render 5, .newline, .render 1, .rewind,
        .render 2].foldl applyBuilderOp
        (SixelImageBuilder.init ⟨10, 6⟩ 1 1 ⟨0, 0, 0, 255⟩
          (SixelColorPalette.init 16 256))).sixelCursor.column ≤
      ([BuilderOp.render 63, .render 5, .newline, .render 1, .rewind,
        .render 2].foldl applyBuilderOp
        (SixelImageBuilder.init ⟨10, 6⟩ 1 1 ⟨0, 0, 0, 255⟩
          (SixelColorPalette.init 16 256))).size.width) :=
  ⟨by decide, cursor_discipline _ _ (by decide)⟩

/-! ## C8: the palette cap

The claim quantifies over EVERY initial size, but the constructor
`SixelColorPalette(_size, _maxSize)` resizes to `_size` without clamping
it against `_maxSize`, so a palette constructed with `_size > _maxSize`
immediately violates `palette.length ≤ maxSize`. The invariant does hold
for every constructor call with `_size ≤ _maxSize`, and is preserved by
arbitrary `setColor` / `setSize` sequences. -/

/-- The palette operations quantified over by the cap invariant. -/
inductive PaletteOp
  | setColor (i : Nat) (c : RGBColor)
  | setSize (n : Nat)

/-- Apply one palette operation. -/
def applyPaletteOp (p : SixelColorPalette) (op : PaletteOp) : SixelColorPalette :=
  match op with
  | .setColor i c => p.setColor i c
  | .setSize n => p.setSize n

theorem setColor_maxSize (p : SixelColorPalette) (i : Nat) (c : RGBColor) :
    (p.setColor i c).maxSize = p.maxSize := by
  unfold SixelColorPalette.setColor
  dsimp only
  split <;> [skip; rfl]
  split <;> split <;> rfl

theorem setColor_length_le (p : SixelColorPalette) (i : Nat) (c : RGBColor)
    (h : p.palette.length ≤ p.maxSize) :
    (p.setColor i c).palette.length ≤ p.maxSize := by
  unfold SixelColorPalette.setColor
  dsimp only
  split <;> [skip; exact h]
  by_cases hsz : p.size ≤ i
  · simp only [if_pos hsz]
    split
    · show ((p.setSize (i + 1)).palette.set i c).length ≤ p.maxSize
      rw [List.length_set]
      show (listResize _ _).length ≤ _
      rw [listResize_length]
      omega
    · show (listResize _ _).length ≤ _
      rw [listResize_length]
      omega
  · simp only [if_neg hsz]
    split
    · show (p.palette.set i c).length ≤ p.maxSize
      rw [List.length_set]
      exact h
    · exact h

theorem counterexample_cap :
    ¬ ((SixelColorPalette.init 5 2).palette.length ≤ (SixelColorPalette.init 5 2).maxSize) := by
  decide

theorem palette_cap_aux (ops : List PaletteOp) (p : SixelColorPalette)
    (h : p.palette.length ≤ p.maxSize) :
    (ops.foldl applyPaletteOp p).palette.length ≤ (ops.foldl applyPaletteOp p).maxSize ∧
    (ops.foldl applyPaletteOp p).maxSize = p.maxSize := by
  induction ops generalizing p with
  | nil => exact ⟨h, rfl⟩
  | cons op ops ih =>
      have hmax : (applyPaletteOp p op).maxSize = p.maxSize := by
        cases op with
        | setColor i c => exact setColor_maxSize p i c
        | setSize n => rfl
      have hinv : (applyPaletteOp p op).palette.length ≤ (applyPaletteOp p op).maxSize := by
        rw [hmax]
        cases op with
        | setColor i c => exact setColor_length_le p i c h
        | setSize n =>
            show (listResize _ _).length ≤ _
            rw [listResize_length]
            omega
      have := ih (applyPaletteOp p op) hinv
      exact ⟨this.1, this.2.trans hmax⟩

/-- C8 (amended): for every palette constructed with an initial size not
exceeding the cap, and after any subsequent sequence of `setColor` and
`setSize` calls, `palette.length ≤ maxSize` holds (and the cap itself is
unchanged by those calls). The unamended claim fails at construction
time: the constructor does not clamp the initial size against the cap. -/
theorem palette_cap (sz cap : Nat) (hsz : sz ≤ cap) (ops : List PaletteOp) :
    (ops.foldl applyPaletteOp (SixelColorPalette.init sz cap)).palette.length ≤
      (ops.foldl applyPaletteOp (SixelColorPalette.init sz cap)).maxSize ∧
    (ops.foldl applyPaletteOp (SixelColorPalette.init sz cap)).maxSize = cap := by
  refine palette_cap_aux ops _ ?_
  show ((List.range (List.replicate sz _).length).map _).length ≤ cap
  simpa using hsz

theorem palette_cap_witness :
    (16 : Nat) ≤ 256 ∧
    (([PaletteOp.setColor 300 ⟨1, 2, 3⟩, .setSize 500, .setColor 100 ⟨4, 5, 6⟩,
        .setColor 700 ⟨7, 8, 9⟩].foldl applyPaletteOp
        (SixelColorPalette.init 16 256)).palette.length ≤
      ([PaletteOp.setColor 300 ⟨1, 2, 3⟩, .setSize 500, .setColor 100 ⟨4, 5, 6⟩,
        .setColor 700 ⟨7, 8, 9⟩].foldl applyPaletteOp
        (SixelColorPalette.init 16 256)).maxSize ∧
      ([PaletteOp.setColor 300 ⟨1, 2, 3⟩, .setSize 500, .setColor 100 ⟨4, 5, 6⟩,
        .setColor 700 ⟨7, 8, 9⟩].foldl applyPaletteOp
        (SixelColorPalette.init 16 256)).maxSize = 256) :=
  ⟨by decide, palette_cap 16 256 (by decide) _⟩

/-! ## C3: the repeat introducer -/

/-- The builder of the spec's repeat scenario: `maxSize = (10, 6)`,
opaque black background, a 16-entry VT340 default palette. -/
def scenarioBuilder : SixelImageBuilder :=
  SixelImageBuilder.init ⟨10, 6⟩ 1 1 ⟨0, 0, 0, 255⟩ (SixelColorPalette.init 16 256)

/-- The builder after streaming `#2!4N` (code points 35, 50, 33, 52, 78)
from the initial parser state into `scenarioBuilder`. -/
def repeatDecoded : SixelImageBuilder :=
  (decode SixelParser.init scenarioBuilder [35, 50, 33, 52, 78]).2

/-- C3: in state `RepeatIntroducer` with accumulated parameters
`n :: rest`, a sixel byte `bv` emits `render(bv - 63)` exactly `n` times
and moves to `Ground`; and concretely, decoding `#2!4N` (N = code 78,
value 15 = bits 001111) from the initial builder paints columns 0..3 at
rows 0..3 with palette entry 2 = RGB(204, 33, 33) (alpha opaque) and
leaves rows 4..5 of those columns at the opaque black background. -/
theorem repeat_spec (n : Nat) (rest : List Nat) (bv : Nat)
    (h1 : 63 ≤ bv) (h2 : bv ≤ 126) :
    SixelParser.parse ⟨.RepeatIntroducer, n :: rest⟩ bv =
      (⟨.Ground, n :: rest⟩, List.replicate n (.render (bv - 63))) ∧
    ((∀ c, c < 4 → ∀ r, r < 4 → repeatDecoded.pixelAt r c = [204, 33, 33, 255]) ∧
     (∀ c, c < 4 → ∀ r, 4 ≤ r → r < 6 → repeatDecoded.pixelAt r c = [0, 0, 0, 255])) := by
  constructor
  · have hd : isDigit bv = false := by
      simp only [isDigit, decide_eq_false_iff_not]
      omega
    have hs : isSixel bv = true := by
      simp only [isSixel, decide_eq_true_eq]
      omega
    simp [SixelParser.parse, hd, hs, SixelParser.transitionTo, SixelParser.leaveEvents,
      SixelParser.enterParams, toSixel]
  · decide

theorem repeat_spec_witness :
    (63 : Nat) ≤ 78 ∧ (78 : Nat) ≤ 126 ∧
    SixelParser.parse ⟨.RepeatIntroducer, [2]⟩ 78 =
      (⟨.Ground, [2]⟩, List.replicate 2 (.render 15)) :=
  ⟨by decide, by decide, (repeat_spec 2 [] 78 (by decide) (by decide)).1⟩

/-! ## C1: render writes one sixel column -/

theorem getD_set_self (l : List Nat) (i a d : Nat) (h : i < l.length) :
    (l.set i a).getD i d = a := by
  simp [List.getD_eq_getElem?_getD, List.getElem?_set_self h]

theorem getD_set_ne (l : List Nat) (i j a d : Nat) (h : i ≠ j) :
    (l.set i a).getD j d = l.getD j d := by
  simp [List.getD_eq_getElem?_getD, List.getElem?_set_ne h]

/-- Distinct in-raster pixels have distinct flat indices. -/
theorem pix_index_inj {w r c r' c' : Nat} (hc : c < w) (hc' : c' < w)
    (h : r * w + c = r' * w + c') : r = r' ∧ c = c' := by
  have h1 : (r * w + c) % w = c % w := by rw [Nat.mul_comm]; exact Nat.mul_add_mod w r c
  have h2 : (r' * w + c') % w = c' % w := by rw [Nat.mul_comm]; exact Nat.mul_add_mod w r' c'
  rw [Nat.mod_eq_of_lt hc] at h1
  rw [Nat.mod_eq_of_lt hc'] at h2
  have hcc : c = c' := by rw [← h1, h, h2]
  refine ⟨?_, hcc⟩
  have hw : 0 < w := by omega
  have hrr : r * w = r' * w := by omega
  exact Nat.eq_of_mul_eq_mul_right hw hrr

/-- An in-raster pixel's flat index is inside a `w * h`-pixel buffer. -/
theorem pix_lt {r c w h : Nat} (hr : r < h) (hc : c < w) : r * w + c < w * h :=
  calc r * w + c < (r + 1) * w := by rw [Nat.succ_mul]; omega
  _ ≤ h * w := Nat.mul_le_mul_right w hr
  _ = w * h := Nat.mul_comm h w

namespace SixelImageBuilder

theorem write_currentColorVal (b : SixelImageBuilder) (coord : Coordinate) (v : RGBColor) :
    (b.write coord v).currentColorVal = b.currentColorVal := by
  unfold currentColorVal
  rw [write_colors, write_currentColor]

/-- Effect of one bounds-checked `write` on an in-raster pixel read. -/
theorem pixelAt_write (b : SixelImageBuilder) (coord : Coordinate) (v : RGBColor)
    (r c : Nat) (hr : r < b.size.height) (hc : c < b.size.width)
    (hlen : b.buffer.length = 4 * b.size.width * b.size.height) :
    (b.write coord v).pixelAt r c =
      if coord.row = r ∧ coord.column = c then [v.red, v.green, v.blue, 255]
      else b.pixelAt r c := by
  have hlen4 : b.buffer.length = 4 * (b.size.width * b.size.height) := by
    rw [hlen]; ring
  unfold write
  split
  case isFalse hb =>
    rw [if_neg]
    rintro ⟨h1, h2⟩
    exact hb ⟨by omega, by omega⟩
  case isTrue hb =>
    by_cases heq : coord.row = r ∧ coord.column = c
    · rw [if_pos heq]
      obtain ⟨h1, h2⟩ := heq
      subst h1 h2
      have hidx : coord.row * b.size.width + coord.column < b.size.width * b.size.height :=
        pix_lt hr hc
      unfold pixelAt
      dsimp only
      simp only [List.cons.injEq, and_true]
      refine ⟨?_, ?_, ?_, ?_⟩
      · rw [getD_set_ne, getD_set_ne, getD_set_ne, getD_set_self] <;>
          first
            | omega
            | (simp only [List.length_set]; omega)
      · rw [getD_set_ne, getD_set_ne, getD_set_self] <;>
          first
            | omega
            | (simp only [List.length_set]; omega)
      · rw [getD_set_ne, getD_set_self] <;>
          first
            | omega
            | (simp only [List.length_set]; omega)
      · rw [getD_set_self] <;>
          first
            | omega
            | (simp only [List.length_set]; omega)
    · rw [if_neg heq]
      have hne : coord.row * b.size.width + coord.column ≠ r * b.size.width + c := by
        intro h
        exact heq (pix_index_inj hb.2 hc h)
      unfold pixelAt
      dsimp only
      simp only [List.cons.injEq, and_true]
      refine ⟨?_, ?_, ?_, ?_⟩ <;>
        rw [getD_set_ne, getD_set_ne, getD_set_ne, getD_set_ne] <;> omega

/-- Effect of the six-bit write loop on an in-raster pixel read: a pixel
is painted with the current color exactly when it sits in the captured
column `x` at a row `row + i` for a loop index `i ∈ L` whose sixel bit
is set; every other pixel keeps its bytes. -/
theorem pixelAt_renderFold (x s : Nat) (L : List Nat) (b : SixelImageBuilder)
    (r c : Nat) (hr : r < b.size.height) (hc : c < b.size.width)
    (hlen : b.buffer.length = 4 * b.size.width * b.size.height) :
    (renderFold x s L b).pixelAt r c =
      if c = x ∧ ∃ i, i ∈ L ∧ r = b.sixelCursor.row + i ∧ s &&& (1 <<< i) ≠ 0 then
        [b.currentColorVal.red, b.currentColorVal.green, b.currentColorVal.blue, 255]
      else b.pixelAt r c := by
  induction L generalizing b with
  | nil => simp [renderFold]
  | cons i L ih =>
      show (renderFold x s L _).pixelAt r c = _
      dsimp only
      by_cases hbit : s &&& (1 <<< i) ≠ 0
      · rw [if_pos hbit]
        have hstep := ih (b.write ⟨b.sixelCursor.row + i, x⟩ b.currentColorVal)
          (by rw [write_size]; exact hr) (by rw [write_size]; exact hc)
          (by rw [write_buffer_length, write_size]; exact hlen)
        rw [write_sixelCursor, write_currentColorVal] at hstep
        rw [hstep,
          pixelAt_write b ⟨b.sixelCursor.row + i, x⟩ b.currentColorVal r c hr hc hlen]
        by_cases h1 : c = x
        · subst h1
          by_cases h2 : ∃ j, j ∈ L ∧ r = b.sixelCursor.row + j ∧ s &&& (1 <<< j) ≠ 0
          · have hex : ∃ j, j ∈ i :: L ∧ r = b.sixelCursor.row + j ∧ s &&& (1 <<< j) ≠ 0 := by
              obtain ⟨j, hj⟩ := h2
              exact ⟨j, List.mem_cons_of_mem i hj.1, hj.2⟩
            rw [if_pos ⟨rfl, h2⟩, if_pos ⟨rfl, hex⟩]
          · rw [if_neg (fun h => h2 h.2)]
            by_cases h3 : r = b.sixelCursor.row + i
            · rw [if_pos ⟨h3.symm, rfl⟩, if_pos ⟨rfl, i, List.mem_cons_self i L, h3, hbit⟩]
            · rw [if_neg (fun h => h3 h.1.symm), if_neg]
              rintro ⟨-, j, hjmem, hjr, hjbit⟩
              rcases List.mem_cons.mp hjmem with hj | hj
              · exact h3 (hj ▸ hjr)
              · exact h2 ⟨j, hj, hjr, hjbit⟩
        · rw [if_neg (fun h => h1 h.1), if_neg (fun h => h1 h.2.symm),
            if_neg (fun h => h1 h.1)]
      · rw [if_neg hbit]
        rw [ih b hr hc hlen]
        by_cases h1 : c = x ∧ ∃ j, j ∈ L ∧ r = b.sixelCursor.row + j ∧ s &&& (1 <<< j) ≠ 0
        · have hex : ∃ j, j ∈ i :: L ∧ r = b.sixelCursor.row + j ∧ s &&& (1 <<< j) ≠ 0 := by
            obtain ⟨j, hj⟩ := h1.2
            exact ⟨j, List.mem_cons_of_mem i hj.1, hj.2⟩
          rw [if_pos h1, if_pos ⟨h1.1, hex⟩]
        · rw [if_neg h1, if_neg]
          rintro ⟨hcx, j, hjmem, hjr, hjbit⟩
          rcases List.mem_cons.mp hjmem with hj | hj
          · subst hj
            exact hbit hjbit
          · exact h1 ⟨hcx, j, hj, hjr, hjbit⟩

end SixelImageBuilder

/-- C1: for any builder whose buffer satisfies the size invariant and any
sixel value `s ≤ 63`: when the cursor column has reached or passed
`size.w`, `render(s)` changes nothing at all; otherwise it advances the
column by exactly one, keeps the buffer length (so out-of-raster writes
are dropped, the bounds check living inside `write`), and every
in-raster pixel `(r, c)` afterwards holds the current palette color with
alpha `0xFF` exactly when `c` is the old cursor column and `r = row + i`
for a set bit `i < 6` of `s`, all other pixels keeping their old bytes. -/
theorem render_spec (b : SixelImageBuilder) (s : Nat) (hs : s ≤ 63)
    (hlen : b.buffer.length = 4 * b.size.width * b.size.height) :
    (b.size.width ≤ b.sixelCursor.column → b.render s = b) ∧
    (b.sixelCursor.column < b.size.width →
      (b.render s).sixelCursor = ⟨b.sixelCursor.row, b.sixelCursor.column + 1⟩ ∧
      (b.render s).buffer.length = b.buffer.length ∧
      ∀ r, r < b.size.height → ∀ c, c < b.size.width →
        (b.render s).pixelAt r c =
          (if c = b.sixelCursor.column ∧
              (∃ i, i < 6 ∧ r = b.sixelCursor.row + i ∧ s &&& (1 <<< i) ≠ 0) then
            [b.currentColorVal.red, b.currentColorVal.green, b.currentColorVal.blue, 255]
          else b.pixelAt r c)) := by
  constructor
  · intro h
    unfold SixelImageBuilder.render
    rw [if_neg (by omega)]
  · intro h
    refine ⟨?_, ?_, ?_⟩
    · calc (b.render s).sixelCursor
          = ⟨(b.render s).sixelCursor.row, (b.render s).sixelCursor.column⟩ := rfl
        _ = ⟨b.sixelCursor.row, b.sixelCursor.column + 1⟩ := by
            rw [SixelImageBuilder.render_row, SixelImageBuilder.render_column, if_pos h]
    · unfold SixelImageBuilder.render
      rw [if_pos h]
      exact SixelImageBuilder.renderFold_buffer_length ..
    · intro r hr c hc
      have hpix := SixelImageBuilder.pixelAt_renderFold b.sixelCursor.column s
        (List.range 6) b r c hr hc hlen
      simp only [List.mem_range] at hpix
      have hrender : (b.render s).pixelAt r c =
          (SixelImageBuilder.renderFold b.sixelCursor.column s (List.range 6) b).pixelAt r c := by
        unfold SixelImageBuilder.render
        rw [if_pos h]
        rfl
      rw [hrender, hpix]

set_option maxRecDepth 40000 in
theorem render_spec_witness :
    (15 : Nat) ≤ 63 ∧
    scenarioBuilder.buffer.length =
      4 * scenarioBuilder.size.width * scenarioBuilder.size.height ∧
    (scenarioBuilder.render 15).sixelCursor =
      ⟨scenarioBuilder.sixelCursor.row, scenarioBuilder.sixelCursor.column + 1⟩ :=
  ⟨by decide, by decide,
   ((render_spec scenarioBuilder 15 (by decide) (by decide)).2 (by decide)).1⟩

/-! ## C2: per-cell fragments -/

theorem flatten_replicate_length {α : Type} (n : Nat) (l : List α) :
    ((List.replicate n l).flatten).length = n * l.length := by
  induction n with
  | zero => simp
  | succ n ih =>
      rw [List.replicate_succ, List.flatten_cons, List.length_append, ih, Nat.succ_mul]
      omega

theorem flatten_uniform_length {α : Type} (L : List (List α)) (k : Nat)
    (hk : ∀ l, l ∈ L → l.length = k) :
    L.flatten.length = L.length * k := by
  induction L with
  | nil => simp
  | cons l L ih =>
      rw [List.flatten_cons, List.length_append, hk l (List.mem_cons_self l L),
        ih (fun l' h => hk l' (List.mem_cons_of_mem l h)), List.length_cons, Nat.succ_mul]
      omega

/-- Slicing row `y` out of a concatenation of equal-length rows. -/
theorem flatten_uniform_slice {α : Type} (L : List (List α)) (k y : Nat)
    (hk : ∀ l, l ∈ L → l.length = k) (hy : y < L.length) :
    (L.flatten.drop (y * k)).take k = L.getD y [] := by
  induction L generalizing y with
  | nil => simp at hy
  | cons l L ih =>
      have hl : l.length = k := hk l (List.mem_cons_self l L)
      cases y with
      | zero =>
          rw [Nat.zero_mul, List.drop_zero, List.flatten_cons,
            List.take_append_of_le_length (Nat.le_of_eq hl.symm), ← hl, List.take_length]
          rfl
      | succ y =>
          have hidx : (y + 1) * k = l.length + y * k := by rw [hl]; ring
          rw [List.flatten_cons, hidx, List.drop_append, List.getD_cons_succ]
          exact ih y (fun l' h => hk l' (List.mem_cons_of_mem l h)) (by simpa using hy)

/-- A slice that stays inside the left part of a concatenation. -/
theorem slice_append_left {α : Type} (l₁ l₂ : List α) (k m : Nat)
    (h : k + m ≤ l₁.length) :
    ((l₁ ++ l₂).drop k).take m = (l₁.drop k).take m := by
  rw [List.drop_append_of_le_length (by omega),
    List.take_append_of_le_length (by rw [List.length_drop]; omega)]

theorem replicate_flatten_slice {α : Type} (n j : Nat) (l : List α) (hj : j < n) :
    (((List.replicate n l).flatten).drop (j * l.length)).take l.length = l := by
  rw [flatten_uniform_slice (List.replicate n l) l.length j
    (fun l' h => by rw [List.eq_of_mem_replicate h]) (by simpa using hj)]
  simp [List.getD_eq_getElem?_getD, List.getElem?_replicate_of_lt hj]

/-- A row that starts inside the image and does not run past its right
edge stays inside the pixel buffer. -/
theorem row_bound {rowIdx t iw imgh : Nat} (h1 : rowIdx < imgh) (h2 : t ≤ iw) :
    rowIdx * iw + t ≤ iw * imgh :=
  calc rowIdx * iw + t ≤ rowIdx * iw + iw := by omega
  _ = (rowIdx + 1) * iw := by rw [Nat.succ_mul]
  _ ≤ imgh * iw := Nat.mul_le_mul_right iw h1
  _ = iw * imgh := Nat.mul_comm imgh iw

/-- Every copied-or-padded row of a fragment is exactly
`cellSize.w * 4` bytes long. -/
theorem fragment_row_length (ri : RasterizedImage) (pos : Coordinate)
    (hx : pos.column * ri.cellSize.width ≤ ri.image.width)
    (hy : pos.row * ri.cellSize.height ≤ ri.image.height)
    (hdata : ri.image.data.length = ri.image.width * ri.image.height * 4)
    (y : Nat) (hyl : y < ri.availableHeight pos) :
    (((ri.image.data.drop
        (((pos.row * ri.cellSize.height + (ri.availableHeight pos - 1 - y)) * ri.image.width
            + pos.column * ri.cellSize.width) * 4)).take (ri.availableWidth pos * 4)) ++
      (List.replicate (ri.cellSize.width - ri.availableWidth pos)
        ri.defaultColor.bytes).flatten).length = ri.cellSize.width * 4 := by
  have haw1 : ri.availableWidth pos ≤ ri.cellSize.width := Nat.min_le_right ..
  have haw2 : pos.column * ri.cellSize.width + ri.availableWidth pos ≤ ri.image.width := by
    have := Nat.min_le_left (ri.image.width - pos.column * ri.cellSize.width) ri.cellSize.width
    unfold RasterizedImage.availableWidth
    omega
  have hah : pos.row * ri.cellSize.height + ri.availableHeight pos ≤ ri.image.height := by
    have := Nat.min_le_left (ri.image.height - pos.row * ri.cellSize.height) ri.cellSize.height
    unfold RasterizedImage.availableHeight
    omega
  have hrow : pos.row * ri.cellSize.height + (ri.availableHeight pos - 1 - y) <
      ri.image.height := by omega
  have hinside : ((pos.row * ri.cellSize.height + (ri.availableHeight pos - 1 - y))
        * ri.image.width + pos.column * ri.cellSize.width) * 4
      + ri.availableWidth pos * 4 ≤ ri.image.data.length := by
    have h1 : (pos.row * ri.cellSize.height + (ri.availableHeight pos - 1 - y))
        * ri.image.width + (pos.column * ri.cellSize.width + ri.availableWidth pos) ≤
        ri.image.width * ri.image.height :=
      row_bound hrow (by omega)
    have h2 : ri.image.data.length = 4 * (ri.image.width * ri.image.height) := by
      rw [hdata]; ring
    omega
  rw [List.length_append, List.length_take, List.length_drop,
    flatten_replicate_length]
  have hdc : ri.defaultColor.bytes.length = 4 := rfl
  rw [hdc]
  omega

/-- C2: `fragment` is total with exactly `cellSize.w * cellSize.h * 4`
bytes; its first `cellSize.h - availableHeight` buffer rows — the bottom
rows of the displayed bottom-up tile — are pure `defaultColor` fill; and
buffer row `(cellSize.h - availableHeight) + y`, for `y <
availableHeight`, consists of the `availableWidth * 4` image bytes of
image row `yOffset + (availableHeight - 1 - y)` starting at pixel column
`xOffset`, followed by `(cellSize.w - availableWidth)` pixels of
`defaultColor`. -/
theorem fragment_spec (ri : RasterizedImage) (pos : Coordinate)
    (hcw : 0 < ri.cellSize.width) (hch : 0 < ri.cellSize.height)
    (hx : pos.column * ri.cellSize.width ≤ ri.image.width)
    (hy : pos.row * ri.cellSize.height ≤ ri.image.height)
    (hdata : ri.image.data.length = ri.image.width * ri.image.height * 4) :
    (ri.fragment pos).length = ri.cellSize.width * ri.cellSize.height * 4 ∧
    (∀ r c, r < ri.cellSize.height - ri.availableHeight pos → c < ri.cellSize.width →
      (((ri.fragment pos).drop ((r * ri.cellSize.width + c) * 4)).take 4 =
        ri.defaultColor.bytes)) ∧
    (∀ y, y < ri.availableHeight pos →
      (((ri.fragment pos).drop
          (((ri.cellSize.height - ri.availableHeight pos + y) * ri.cellSize.width) * 4)).take
        (ri.cellSize.width * 4) =
      ((ri.image.data.drop
          (((pos.row * ri.cellSize.height + (ri.availableHeight pos - 1 - y)) * ri.image.width
              + pos.column * ri.cellSize.width) * 4)).take (ri.availableWidth pos * 4)) ++
        (List.replicate (ri.cellSize.width - ri.availableWidth pos)
          ri.defaultColor.bytes).flatten)) := by
  have hah : ri.availableHeight pos ≤ ri.cellSize.height := Nat.min_le_right ..
  have hdc : ri.defaultColor.bytes.length = 4 := rfl
  have hrowlen : ∀ l, l ∈ (List.range (ri.availableHeight pos)).map (fun y =>
      ((ri.image.data.drop
          (((pos.row * ri.cellSize.height + (ri.availableHeight pos - 1 - y)) * ri.image.width
              + pos.column * ri.cellSize.width) * 4)).take (ri.availableWidth pos * 4)) ++
        (List.replicate (ri.cellSize.width - ri.availableWidth pos)
          ri.defaultColor.bytes).flatten) → l.length = ri.cellSize.width * 4 := by
    intro l hl
    obtain ⟨y, hyr, rfl⟩ := List.mem_map.mp hl
    exact fragment_row_length ri pos hx hy hdata y (List.mem_range.mp hyr)
  have hgaplen : ((List.replicate
      ((ri.cellSize.height - ri.availableHeight pos) * ri.cellSize.width)
      ri.defaultColor.bytes).flatten).length =
      ((ri.cellSize.height - ri.availableHeight pos) * ri.cellSize.width) * 4 := by
    rw [flatten_replicate_length, hdc]
  refine ⟨?_, ?_, ?_⟩
  · unfold RasterizedImage.fragment
    rw [List.length_append, hgaplen,
      flatten_uniform_length _ (ri.cellSize.width * 4) hrowlen]
    rw [List.length_map, List.length_range]
    obtain ⟨d, hd⟩ : ∃ d, ri.cellSize.height = ri.availableHeight pos + d :=
      ⟨ri.cellSize.height - ri.availableHeight pos, by omega⟩
    rw [hd]
    have hsub : ri.availableHeight pos + d - ri.availableHeight pos = d := by omega
    rw [hsub]
    ring
  · intro r c hr hc
    have hj : r * ri.cellSize.width + c <
        (ri.cellSize.height - ri.availableHeight pos) * ri.cellSize.width := by
      have := pix_lt hr hc
      have hcomm : ri.cellSize.width * (ri.cellSize.height - ri.availableHeight pos) =
          (ri.cellSize.height - ri.availableHeight pos) * ri.cellSize.width :=
        Nat.mul_comm ..
      omega
    unfold RasterizedImage.fragment
    rw [slice_append_left _ _ _ _ (by rw [hgaplen]; omega)]
    have h4 : (4 : Nat) = ri.defaultColor.bytes.length := rfl
    rw [h4]
    exact replicate_flatten_slice _ _ _ hj
  · intro y hyl
    unfold RasterizedImage.fragment
    have hsplit : ((ri.cellSize.height - ri.availableHeight pos + y) * ri.cellSize.width) * 4 =
        ((List.replicate ((ri.cellSize.height - ri.availableHeight pos) * ri.cellSize.width)
          ri.defaultColor.bytes).flatten).length + y * (ri.cellSize.width * 4) := by
      rw [hgaplen]
      ring
    rw [hsplit, List.drop_append]
    rw [flatten_uniform_slice _ (ri.cellSize.width * 4) y hrowlen
      (by rw [List.length_map, List.length_range]; exact hyl)]
    simp [List.getD_eq_getElem?_getD, List.getElem?_range hyl]

theorem fragment_spec_witness :
    (0 : Nat) < 2 ∧ (0 : Nat) < 2 ∧ (1 : Nat) * 2 ≤ 3 ∧ (0 : Nat) * 2 ≤ 2 ∧
    (RasterizedImage.mk (Image.mk 3 2 (List.range 24)) ⟨9, 8, 7, 6⟩ ⟨2, 2⟩).image.data.length =
      3 * 2 * 4 ∧
    ((RasterizedImage.mk (Image.mk 3 2 (List.range 24)) ⟨9, 8, 7, 6⟩ ⟨2, 2⟩).fragment
        ⟨0, 1⟩).length = 2 * 2 * 4 :=
  ⟨by decide, by decide, by decide, by decide, by decide,
   (fragment_spec (RasterizedImage.mk (Image.mk 3 2 (List.range 24)) ⟨9, 8, 7, 6⟩ ⟨2, 2⟩)
      ⟨0, 1⟩ (by decide) (by decide) (by decide) (by decide) (by decide)).1⟩

end Contour
